import Mathlib

/-!
Shallow embedding of the `common` crate of the rsdice repository
(`src/common/src/{stack,tile,player,area,world,game}.rs`) and proofs of the
behavioural claims about it.

Conventions of the embedding:
* Rust `Uuid` values are modelled as `Nat` (only equality of ids matters).
* `HashMap<Uuid, Area>` is modelled as an association list `List (Nat × Area)`
  with lookup/remove/insert operations mirroring the `HashMap` operations the
  code uses; the `HashMap` key-uniqueness guarantee appears as a `Nodup`
  hypothesis where a proof needs it.
* Methods taking `&mut self` and returning `Result<T, E>` are modelled as
  functions `State → Except E T × State`, returning the (possibly mutated)
  state next to the result, exactly as the imperative code leaves `self`
  behind on an early `return Err(..)`.
* Rust panics (index out of bounds, `clamp` with `min > max`) are modelled as
  `Option.none`.
* The random dice rolls of `Stack::attack_roll`/`Stack::defence_roll` and the
  random first turn `random_range(..players.len())` are taken as explicit
  input parameters, since the claims quantify over them.
-/

/-- Model of `StackError` from `src/common/src/stack.rs`. -/
inductive StackError
  | overflow
  | underflow
deriving DecidableEq

/-- Model of `Stack` from `src/common/src/stack.rs`: a unit count. -/
structure Stack where
  count : Nat
deriving DecidableEq

/-- `Stack::MAX`. -/
def Stack.MAXC : Nat := 8

/-- `Stack::MIN`. -/
def Stack.MINC : Nat := 1

/-- `Stack::default`, one die. -/
def Stack.default : Stack := ⟨1⟩

/-- `Stack::is_full`: `self.count >= Self::MAX`. -/
def Stack.is_full (s : Stack) : Bool := decide (s.count ≥ Stack.MAXC)

/-- `Stack::is_single`: `self.count <= Self::MIN`. -/
def Stack.is_single (s : Stack) : Bool := decide (s.count ≤ Stack.MINC)

/-- `Stack::increment`. -/
def Stack.increment (s : Stack) : Except StackError Stack :=
  if s.is_full then .error .overflow else .ok ⟨s.count + 1⟩

/-- `Stack::decrement`. -/
def Stack.decrement (s : Stack) : Except StackError Stack :=
  if s.is_single then .error .underflow else .ok ⟨s.count - 1⟩

/-- `Stack::defeat`: reset the count to `MIN`. -/
def Stack.defeat (_ : Stack) : Stack := ⟨Stack.MINC⟩

/-- `Stack::split`: on a non-single stack, `count -= MIN` and return
the pair `(Stack { count: MIN }, self)`. -/
def Stack.split (s : Stack) : Except StackError (Stack × Stack) :=
  if s.is_single then .error .underflow
  else .ok (⟨Stack.MINC⟩, ⟨s.count - Stack.MINC⟩)

/-- Model of `Tile` from `src/common/src/tile.rs`. -/
structure Tile where
  x : Nat
  y : Nat
deriving DecidableEq

/-- `Tile::is_adjacent` from `src/common/src/tile.rs`, verbatim: `dx` and `dy`
are the absolute values of the signed coordinate differences, and the five
disjuncts are exactly the five of the source (including the two comparing the
absolute value `dy` with `-1`). -/
def Tile.is_adjacent (t o : Tile) : Bool :=
  let dx : Int := ((t.x : Int) - (o.x : Int)).natAbs
  let dy : Int := ((t.y : Int) - (o.y : Int)).natAbs
  (decide (dx = 1) && decide (dy = 0))
    || (decide (dx = 1) && decide (dy = 1) && decide (t.x % 2 = 0))
    || (decide (dx = 1) && decide (dy = -1) && !(decide (t.x % 2 = 0)))
    || (decide (dx = 0) && decide (dy = 1))
    || (decide (dx = 0) && decide (dy = -1))

/-- `MAX_PLAYERS` from `src/common/src/player.rs`. -/
def MAX_PLAYERS : Nat := 6

/-- Model of `Color` from `src/common/src/player.rs`. -/
inductive Color
  | red
  | green
  | blue
  | yellow
  | purple
  | orange
deriving DecidableEq

/-- `Color::ALL`, the six palette entries in index order. -/
def Color.ALL : List Color := [.red, .green, .blue, .yellow, .purple, .orange]

/-- Model of `ColorError`. -/
inductive ColorError
  | invalidIndex (n : Nat)
deriving DecidableEq

/-- `TryFrom<usize> for Color`. -/
def Color.tryFrom (n : Nat) : Except ColorError Color :=
  match n with
  | 0 => .ok .red
  | 1 => .ok .green
  | 2 => .ok .blue
  | 3 => .ok .yellow
  | 4 => .ok .purple
  | 5 => .ok .orange
  | _ => .error (.invalidIndex n)

/-- Model of `Player` from `src/common/src/player.rs`. -/
structure Player where
  id : Nat
  name : String
  color : Color
  stored_dice : Nat
deriving DecidableEq

/-- `Player::MAX_STORED_DICE`. -/
def Player.MAX_STORED_DICE : Nat := 20

/-- `Player::new`. -/
def Player.new (id : Nat) (name : String) (color : Color) : Player :=
  ⟨id, name, color, 0⟩

/-- Rust `Ord::clamp(self, min, max)`: asserts `min <= max` (panicking
otherwise, modelled as `none`), then bounds `self` into `[min, max]`. -/
def natClamp (x lo hi : Nat) : Option Nat :=
  if lo ≤ hi then some (max lo (min x hi)) else none

/-- `Player::store_dice`, verbatim:
`self.stored_dice = self.stored_dice.clamp(self.stored_dice + amount, MAX_STORED_DICE)`,
i.e. `clamp` is called with `min = stored_dice + amount` and
`max = MAX_STORED_DICE`; `none` models the panic of `clamp` when `min > max`. -/
def Player.store_dice (p : Player) (amount : Nat) : Option Player :=
  (natClamp p.stored_dice (p.stored_dice + amount) Player.MAX_STORED_DICE).map
    (fun c => { p with stored_dice := c })

/-- Model of `Area` from `src/common/src/area.rs`; the `HashSet<Tile>` is a
list of tiles. -/
structure Area where
  id : Nat
  owner : Option Nat
  tiles : List Tile
  stack : Stack
deriving DecidableEq

/-- `Area::is_owned_by`: `self.owner == Some(player_id)`. -/
def Area.is_owned_by (a : Area) (pid : Nat) : Bool := decide (a.owner = some pid)

/-- `Area::is_not_owned`. -/
def Area.is_not_owned (a : Area) : Bool := decide (a.owner = none)

/-- `Area::is_adjacent`: some tile of `a` is adjacent to some tile of `b`. -/
def Area.is_adjacent (a b : Area) : Bool :=
  a.tiles.any (fun tl => b.tiles.any (fun ot => tl.is_adjacent ot))

/-- Association-list lookup, modelling `HashMap::get`. -/
def lookupL (l : List (Nat × Area)) (k : Nat) : Option Area :=
  (l.find? (fun q => decide (q.1 = k))).map Prod.snd

/-- Association-list removal, modelling `HashMap::remove` (the removed value
is recovered with `lookupL`). -/
def removeL (l : List (Nat × Area)) (k : Nat) : List (Nat × Area) :=
  l.filter (fun q => decide (¬ q.1 = k))

/-- Association-list insertion, modelling `HashMap::insert`: replace the
value when the key is present, append otherwise. -/
def insertL (l : List (Nat × Area)) (k : Nat) (a : Area) : List (Nat × Area) :=
  if l.any (fun q => decide (q.1 = k)) then
    l.map (fun q => if q.1 = k then (k, a) else q)
  else l ++ [(k, a)]

/-- Model of `World` from `src/common/src/world.rs`. -/
structure World where
  areas : List (Nat × Area)
deriving DecidableEq

/-- `self.areas.get(&k)`. -/
def World.get (w : World) (k : Nat) : Option Area := lookupL w.areas k

/-- `self.areas.remove(&k)` paired with the map after removal. -/
def World.removeArea (w : World) (k : Nat) : Option Area × World :=
  (lookupL w.areas k, ⟨removeL w.areas k⟩)

/-- `self.areas.insert(k, a)`. -/
def World.insertArea (w : World) (k : Nat) (a : Area) : World :=
  ⟨insertL w.areas k a⟩

/-- Model of `AttackError` from `src/common/src/game.rs`. -/
inductive AttackError
  | areaNotFound (id : Nat)
  | areasNotAdjacent (a b : Nat)
  | areaNotOwnedByPlayer (a p : Nat)
  | areaNotEnoughDice (id : Nat)
  | selfAttackNotAllowed
  | notPlayerTurn
deriving DecidableEq

/-- `World::validate_attack` from `src/common/src/world.rs`: both areas must
exist, be adjacent, `from` owned by the player, `to` not owned by the player,
and the `from` stack not single — checked in that order. -/
def World.validate_attack (w : World) (fromId toId playerId : Nat) :
    Except AttackError Unit :=
  match w.get fromId with
  | none => .error (.areaNotFound fromId)
  | some from_area =>
    match w.get toId with
    | none => .error (.areaNotFound toId)
    | some to_area =>
      if ¬ from_area.is_adjacent to_area then
        .error (.areasNotAdjacent fromId toId)
      else if ¬ from_area.is_owned_by playerId then
        .error (.areaNotOwnedByPlayer fromId playerId)
      else if to_area.is_owned_by playerId then
        .error .selfAttackNotAllowed
      else if from_area.stack.is_single then
        .error (.areaNotEnoughDice fromId)
      else .ok ()

/-- Model of `GameError` from `src/common/src/game.rs`. -/
inductive GameError
  | gameFull
  | playerAlreadyInGame
  | notPlayerTurn
  | gameNotStarted
  | gameStarted
  | gameFinished
  | notEnoughPlayers
  | colorError (e : ColorError)
  | attackError (e : AttackError)
  | stackError (e : StackError)
deriving DecidableEq

/-- Model of `GameState`. -/
inductive GameState
  | waitingForPlayers
  | inProgress (turn : Nat)
  | finished
deriving DecidableEq

/-- Model of `Game`. -/
structure Game where
  id : Nat
  world : World
  players : List Player
  state : GameState
deriving DecidableEq

/-- `Game::new` (the random `Uuid` is a parameter). -/
def Game.new (id : Nat) (world : World) : Game :=
  ⟨id, world, [], .waitingForPlayers⟩

/-- `Game::join_player`: duplicate-id check, then full check, then state
check, then color assignment from the current player count; the new player is
pushed at the end of the list. -/
def Game.join_player (g : Game) (id : Nat) (name : String) :
    Except GameError Player × Game :=
  if g.players.any (fun p => decide (p.id = id)) then
    (.error .playerAlreadyInGame, g)
  else if g.players.length ≥ MAX_PLAYERS then
    (.error .gameFull, g)
  else if g.state ≠ .waitingForPlayers then
    (.error .gameStarted, g)
  else
    match Color.tryFrom g.players.length with
    | .error e => (.error (.colorError e), g)
    | .ok color =>
      let player := Player.new id name color
      (.ok player, { g with players := g.players ++ [player] })

/-- `Game::start`; `first` models `random_range(..self.players.len())`, which
always yields a value strictly below the player count. -/
def Game.start (g : Game) (first : Nat) : Except GameError Unit × Game :=
  if g.state ≠ .waitingForPlayers then
    (.error .gameStarted, g)
  else if g.players.length < 2 then
    (.error .notEnoughPlayers, g)
  else
    (.ok (), { g with state := .inProgress first })

/-- `Game::attack`; `ar` and `dr` model the results of
`from_area.stack.attack_roll()` and `to_area.stack.defence_roll()`. The body
follows the source line by line: validate, remove the attacking area, look up
the defending area, resolve, re-insert the attacking area. The early-`return`
error paths keep whatever partial mutation has happened, as in the source. -/
def Game.attack (g : Game) (fromId toId playerId ar dr : Nat) :
    Except GameError Unit × Game :=
  match g.world.validate_attack fromId toId playerId with
  | .error e => (.error (.attackError e), g)
  | .ok _ =>
    let rm := g.world.removeArea fromId
    match rm.1 with
    | none => (.error (.attackError (.areaNotFound fromId)), { g with world := rm.2 })
    | some from_area =>
      match rm.2.get toId with
      | none => (.error (.attackError (.areaNotFound toId)), { g with world := rm.2 })
      | some to_area =>
        if ar > dr then
          let to1 := { to_area with owner := some playerId }
          let w2 := rm.2.insertArea toId to1
          match from_area.stack.split with
          | .error e => (.error (.stackError e), { g with world := w2 })
          | .ok pair =>
            let w3 := w2.insertArea toId { to1 with stack := pair.2 }
            let w4 := w3.insertArea fromId { from_area with stack := pair.1 }
            (.ok (), { g with world := w4 })
        else
          let w2 := rm.2.insertArea fromId
            { from_area with stack := from_area.stack.defeat }
          (.ok (), { g with world := w2 })

/-- `Game::next_turn`; `none` models the panic of `self.players[*turn]` when
the turn index is out of range. -/
def Game.next_turn (g : Game) (playerId : Nat) :
    Option (Except GameError Unit × Game) :=
  match g.state with
  | .finished => some (.error .gameFinished, g)
  | .waitingForPlayers => some (.error .gameNotStarted, g)
  | .inProgress turn =>
    match g.players.get? turn with
    | none => none
    | some current =>
      if current.id ≠ playerId then some (.error .notPlayerTurn, g)
      else some (.ok (), { g with state := .inProgress ((turn + 1) % g.players.length) })

/-! Lemmas about the association-list model of `HashMap`. -/

theorem lookupL_cons (q : Nat × Area) (l : List (Nat × Area)) (k : Nat) :
    lookupL (q :: l) k = if q.1 = k then some q.2 else lookupL l k := by
  by_cases h : q.1 = k <;> simp [lookupL, List.find?_cons, h]

theorem removeL_cons (q : Nat × Area) (l : List (Nat × Area)) (k : Nat) :
    removeL (q :: l) k = if q.1 = k then removeL l k else q :: removeL l k := by
  by_cases h : q.1 = k <;> simp [removeL, List.filter_cons, h]

theorem lookupL_removeL_ne (l : List (Nat × Area)) (k k2 : Nat) (h : k2 ≠ k) :
    lookupL (removeL l k) k2 = lookupL l k2 := by
  induction l with
  | nil => rfl
  | cons q rest ih =>
    rw [removeL_cons, lookupL_cons]
    by_cases hq : q.1 = k
    · rw [if_pos hq, ih]
      have h2 : ¬ q.1 = k2 := by rw [hq]; exact fun he => h he.symm
      rw [if_neg h2]
    · rw [if_neg hq, lookupL_cons, ih]

theorem lookupL_removeL_self (l : List (Nat × Area)) (k : Nat) :
    lookupL (removeL l k) k = none := by
  induction l with
  | nil => rfl
  | cons q rest ih =>
    rw [removeL_cons]
    by_cases hq : q.1 = k
    · rw [if_pos hq]; exact ih
    · rw [if_neg hq, lookupL_cons, if_neg hq]; exact ih

theorem anyKey_iff (l : List (Nat × Area)) (k : Nat) :
    l.any (fun q => decide (q.1 = k)) = true ↔ ∃ a, lookupL l k = some a := by
  induction l with
  | nil => simp [lookupL]
  | cons q rest ih =>
    rw [List.any_cons, lookupL_cons]
    by_cases hq : q.1 = k <;> simp [hq, ih]

theorem lookupL_map_replace_ne (l : List (Nat × Area)) (k k2 : Nat) (a : Area)
    (h : k2 ≠ k) :
    lookupL (l.map (fun q => if q.1 = k then (k, a) else q)) k2 = lookupL l k2 := by
  induction l with
  | nil => rfl
  | cons q rest ih =>
    rw [List.map_cons, lookupL_cons, lookupL_cons]
    by_cases hq : q.1 = k
    · rw [if_pos hq]
      have h1 : ¬ ((k : Nat), a).1 = k2 := fun he => h he.symm
      have h2 : ¬ q.1 = k2 := by rw [hq]; exact fun he => h he.symm
      rw [if_neg h1, if_neg h2, ih]
    · rw [if_neg hq]
      by_cases hq2 : q.1 = k2
      · rw [if_pos hq2, if_pos hq2]
      · rw [if_neg hq2, if_neg hq2, ih]

theorem lookupL_map_replace_self (l : List (Nat × Area)) (k : Nat) (a : Area)
    (hmem : l.any (fun q => decide (q.1 = k)) = true) :
    lookupL (l.map (fun q => if q.1 = k then (k, a) else q)) k = some a := by
  induction l with
  | nil => simp at hmem
  | cons q rest ih =>
    rw [List.map_cons, lookupL_cons]
    by_cases hq : q.1 = k
    · rw [if_pos hq]; simp
    · rw [if_neg hq, if_neg hq]
      rw [List.any_cons] at hmem
      exact ih (by simpa [hq] using hmem)

theorem lookupL_append_single_ne (l : List (Nat × Area)) (k k2 : Nat) (a : Area)
    (h : k2 ≠ k) : lookupL (l ++ [(k, a)]) k2 = lookupL l k2 := by
  induction l with
  | nil =>
    have h1 : ¬ ((k : Nat), a).1 = k2 := fun he => h he.symm
    simp [lookupL_cons, h1, lookupL]
  | cons q rest ih =>
    rw [List.cons_append, lookupL_cons, lookupL_cons, ih]

theorem lookupL_append_single_self (l : List (Nat × Area)) (k : Nat) (a : Area) :
    lookupL (l ++ [(k, a)]) k = some ((lookupL l k).getD a) := by
  induction l with
  | nil => simp [lookupL, lookupL_cons]
  | cons q rest ih =>
    rw [List.cons_append, lookupL_cons, lookupL_cons]
    by_cases hq : q.1 = k
    · rw [if_pos hq, if_pos hq]; rfl
    · rw [if_neg hq, if_neg hq, ih]

theorem lookupL_insertL_self (l : List (Nat × Area)) (k : Nat) (a : Area) :
    lookupL (insertL l k a) k = some a := by
  unfold insertL
  by_cases hmem : l.any (fun q => decide (q.1 = k)) = true
  · rw [if_pos hmem]
    exact lookupL_map_replace_self l k a hmem
  · rw [if_neg hmem]
    have hnone : lookupL l k = none := by
      rcases ho : lookupL l k with _ | a2
      · rfl
      · exact absurd ((anyKey_iff l k).mpr ⟨a2, ho⟩) hmem
    rw [lookupL_append_single_self, hnone]
    rfl

theorem lookupL_insertL_ne (l : List (Nat × Area)) (k k2 : Nat) (a : Area)
    (h : k2 ≠ k) : lookupL (insertL l k a) k2 = lookupL l k2 := by
  unfold insertL
  by_cases hmem : l.any (fun q => decide (q.1 = k)) = true
  · rw [if_pos hmem]; exact lookupL_map_replace_ne l k k2 a h
  · rw [if_neg hmem]; exact lookupL_append_single_ne l k k2 a h

theorem length_insertL_of_mem (l : List (Nat × Area)) (k : Nat) (a : Area)
    (hmem : ∃ b, lookupL l k = some b) :
    (insertL l k a).length = l.length := by
  unfold insertL
  rw [if_pos ((anyKey_iff l k).mpr hmem), List.length_map]

theorem length_insertL_of_not_mem (l : List (Nat × Area)) (k : Nat) (a : Area)
    (hnone : lookupL l k = none) :
    (insertL l k a).length = l.length + 1 := by
  unfold insertL
  have : ¬ (l.any (fun q => decide (q.1 = k)) = true) := by
    intro hc
    rcases (anyKey_iff l k).mp hc with ⟨b, hb⟩
    rw [hnone] at hb
    exact Option.noConfusion hb
  rw [if_neg this, List.length_append, List.length_cons, List.length_nil]

theorem length_removeL_nodup (l : List (Nat × Area)) (k : Nat)
    (hnd : (l.map Prod.fst).Nodup) (hmem : ∃ b, lookupL l k = some b) :
    (removeL l k).length + 1 = l.length := by
  induction l with
  | nil => rcases hmem with ⟨b, hb⟩; exact Option.noConfusion hb
  | cons q rest ih =>
    rw [List.map_cons, List.nodup_cons] at hnd
    rw [removeL_cons]
    by_cases hq : q.1 = k
    · rw [if_pos hq]
      have hnotin : ∀ r ∈ rest, ¬ r.1 = k := by
        intro r hr he
        exact hnd.1 (by rw [hq, ← he]; exact List.mem_map_of_mem Prod.fst hr)
      have : removeL rest k = rest := by
        apply List.filter_eq_self.mpr
        intro r hr
        simpa using hnotin r hr
      rw [this, List.length_cons]
    · rw [if_neg hq, List.length_cons, List.length_cons]
      congr 1
      apply ih hnd.2
      rcases hmem with ⟨b, hb⟩
      rw [lookupL_cons, if_neg hq] at hb
      exact ⟨b, hb⟩

/-! Inversion of `World::validate_attack`. -/

theorem validate_attack_ok_iff (w : World) (f t p : Nat) :
    w.validate_attack f t p = Except.ok () ↔
      ∃ fa ta, w.get f = some fa ∧ w.get t = some ta ∧
        fa.is_adjacent ta = true ∧ fa.is_owned_by p = true ∧
        ta.is_owned_by p = false ∧ fa.stack.is_single = false := by
  cases hf : w.get f with
  | none => simp [World.validate_attack, hf]
  | some fa =>
    cases ht : w.get t with
    | none => simp [World.validate_attack, hf, ht]
    | some ta =>
      simp only [World.validate_attack, hf, ht]
      split_ifs with h1 h2 h3 h4 <;> simp_all

/-- World resulting from a won attack: the chain of remove/insert operations
`Game::attack` performs when `attack_roll > defense_roll`. -/
def winWorld (w : World) (f t p : Nat) (fa ta : Area) : World :=
  (((World.mk (removeL w.areas f)).insertArea t
      { ta with owner := some p }).insertArea t
      { ta with owner := some p, stack := Stack.mk (fa.stack.count - Stack.MINC) }).insertArea f
    { fa with stack := Stack.mk Stack.MINC }

/-- World resulting from a lost attack: the attacking area is re-inserted
with a defeated stack. -/
def loseWorld (w : World) (f : Nat) (fa : Area) : World :=
  (World.mk (removeL w.areas f)).insertArea f { fa with stack := fa.stack.defeat }

/-- A successful `Game::attack` computed in closed form: under the validation
conditions the result is `Ok` and the world is the remove/insert chain the
source performs, for the winning and the losing branch respectively. -/
theorem attack_eq_of_valid (g : Game) (f t p ar dr : Nat) (fa ta : Area)
    (hfa : g.world.get f = some fa) (hta : g.world.get t = some ta)
    (hadj : fa.is_adjacent ta = true) (hown : fa.is_owned_by p = true)
    (hnot : ta.is_owned_by p = false) (hsingle : fa.stack.is_single = false) :
    g.attack f t p ar dr =
      if ar > dr then (Except.ok (), { g with world := winWorld g.world f t p fa ta })
      else (Except.ok (), { g with world := loseWorld g.world f fa }) := by
  have hft : t ≠ f := by
    intro he
    rw [he, hfa] at hta
    cases hta
    rw [hown] at hnot
    exact Bool.noConfusion hnot
  have hv : g.world.validate_attack f t p = Except.ok () :=
    (validate_attack_ok_iff g.world f t p).mpr ⟨fa, ta, hfa, hta, hadj, hown, hnot, hsingle⟩
  have hfa2 : lookupL g.world.areas f = some fa := hfa
  have hta2 : lookupL (removeL g.world.areas f) t = some ta := by
    rw [lookupL_removeL_ne g.world.areas f t hft]
    exact hta
  have hsplit : fa.stack.split
      = Except.ok (Stack.mk Stack.MINC, Stack.mk (fa.stack.count - Stack.MINC)) := by
    unfold Stack.split
    rw [hsingle]
    simp
  simp only [Game.attack, hv, World.removeArea, World.get, hfa2, hta2, hsplit,
    winWorld, loseWorld]

/-! Concrete fixtures used by counterexamples and witnesses. -/

/-- A tile at the origin (even column). -/
def tileA : Tile := ⟨0, 0⟩

/-- The tile directly below `tileA`, adjacent to it. -/
def tileB : Tile := ⟨0, 1⟩

/-- An area with three dice owned by player 1. -/
def areaA : Area := ⟨100, some 1, [tileA], ⟨3⟩⟩

/-- An adjacent area with two dice owned by player 2. -/
def areaB : Area := ⟨200, some 2, [tileB], ⟨2⟩⟩

/-- A two-area world where `areaA` can legally attack `areaB`. -/
def wTwo : World := ⟨[(100, areaA), (200, areaB)]⟩

/-- An in-progress game over `wTwo` with players 1 and 2. -/
def gTwo : Game :=
  ⟨7, wTwo, [Player.new 1 "a" .red, Player.new 2 "b" .green], .inProgress 0⟩

/-- An in-progress game that already has the full six players. -/
def gSix : Game :=
  ⟨8, ⟨[]⟩,
   [Player.new 1 "p1" .red, Player.new 2 "p2" .green, Player.new 3 "p3" .blue,
    Player.new 4 "p4" .yellow, Player.new 5 "p5" .purple, Player.new 6 "p6" .orange],
   .inProgress 0⟩

/-- A waiting game with exactly two players. -/
def gWait2 : Game :=
  ⟨9, ⟨[]⟩, [Player.new 1 "a" .red, Player.new 2 "b" .green], .waitingForPlayers⟩

/-- All tiles of a 5 by 5 grid. -/
def gridTiles : List Tile :=
  (List.range 5).flatMap (fun x => (List.range 5).map (fun y => Tile.mk x y))

/-- C3 counterexample: a game that is `InProgress` and already holds six
players rejects a fresh join with `GameFull`, not with `GameStarted` — the
full check runs before the state check, so the claim's "regardless of how
many players" is false at six players. -/
theorem join_full_inprogress_not_gamestarted :
    gSix.state = GameState.inProgress 0 ∧ gSix.players.length = 6 ∧
    (gSix.join_player 100 "late").1 = Except.error GameError.gameFull ∧
    (gSix.join_player 100 "late").1 ≠ Except.error GameError.gameStarted := by
  refine ⟨rfl, rfl, rfl, ?_⟩
  intro h
  rw [show (gSix.join_player 100 "late").1 = Except.error GameError.gameFull from rfl] at h
  exact GameError.noConfusion (Except.error.inj h)

/-- C3 amended: joining an `InProgress` game always fails, but the error is
`PlayerAlreadyInGame` for a duplicate id, else `GameFull` at six or more
players, and `GameStarted` only otherwise. -/
theorem join_inprogress_always_fails (g : Game) (id : Nat) (name : String)
    (turn : Nat) (hst : g.state = GameState.inProgress turn) :
    (g.join_player id name).1 =
      Except.error
        (if g.players.any (fun q => decide (q.id = id)) then GameError.playerAlreadyInGame
         else if g.players.length ≥ MAX_PLAYERS then GameError.gameFull
         else GameError.gameStarted) := by
  unfold Game.join_player
  split_ifs with h1 h2 h3 <;> simp_all

/-- C3 amended witness: the amended statement evaluated on the concrete
six-player in-progress game. -/
theorem join_inprogress_always_fails_witness :
    (gSix.join_player 101 "late2").1 = Except.error GameError.gameFull := by
  have h := join_inprogress_always_fails gSix 101 "late2" 0 rfl
  rw [h]
  rfl

/-- C4: `Tile::is_adjacent` evaluated on concrete tiles: it is not symmetric
(`(0,0)` is adjacent to `(1,1)` but not conversely, because `dy` is an
absolute value and the `dy == -1` clauses can never hold), and an interior
even-column tile has eight adjacent tiles while an interior odd-column tile
has four — not six as the six-direction hexagonal rule requires. -/
theorem tile_adjacency_diverges :
    (Tile.mk 0 0).is_adjacent (Tile.mk 1 1) = true ∧
    (Tile.mk 1 1).is_adjacent (Tile.mk 0 0) = false ∧
    (gridTiles.filter (fun o => (Tile.mk 2 2).is_adjacent o)).length = 8 ∧
    (gridTiles.filter (fun o => (Tile.mk 1 2).is_adjacent o)).length = 4 := by
  decide

/-- C5: `Player::store_dice` evaluated where the pool would exceed the cap:
the `clamp` call receives `min = 0 + 25 = 25 > 20 = max` and panics (`none`),
while the claimed result `min(0 + 25, 20) = 20` exists; below the cap the
pool is `s + a` as claimed. -/
theorem store_dice_panics_above_cap :
    (Player.new 1 "al" Color.red).store_dice 25 = none ∧
    min (0 + 25) Player.MAX_STORED_DICE = 20 ∧
    ((Player.new 1 "al" Color.red).store_dice 5).map Player.stored_dice = some 5 := by
  refine ⟨rfl, rfl, rfl⟩


/-- The `from` and `to` areas of a validated attack are distinct ids. -/
theorem valid_to_ne_from (w : World) (f t p : Nat) (fa ta : Area)
    (hfa : w.get f = some fa) (hta : w.get t = some ta)
    (hown : fa.is_owned_by p = true) (hnot : ta.is_owned_by p = false) :
    t ≠ f := by
  intro he
  rw [he, hfa] at hta
  cases hta
  rw [hown] at hnot
  exact Bool.noConfusion hnot

/-- A successful attack has a successful validation. -/
theorem attack_ok_validate_ok (g : Game) (f t p ar dr : Nat)
    (hok : (g.attack f t p ar dr).1 = Except.ok ()) :
    g.world.validate_attack f t p = Except.ok () := by
  rcases hval : g.world.validate_attack f t p with e | u
  · exfalso
    have hx : (g.attack f t p ar dr).1 = Except.error (GameError.attackError e) := by
      simp [Game.attack, hval]
    rw [hx] at hok
    exact Except.noConfusion hok
  · cases u
    rfl

/-- Lookup of the `to` key after the three inserts of a won attack. -/
theorem lookup_ins_ins_ins_to (l : List (Nat × Area)) (f t : Nat) (a b c : Area)
    (hft : t ≠ f) :
    lookupL (insertL (insertL (insertL l t a) t b) f c) t = some b := by
  rw [lookupL_insertL_ne _ f t c hft, lookupL_insertL_self]

/-- Lookup of a key other than the re-inserted one after a lost attack. -/
theorem lookup_ins_remove_other (l : List (Nat × Area)) (f t : Nat) (c ta : Area)
    (hft : t ≠ f) (ht : lookupL l t = some ta) :
    lookupL (insertL (removeL l f) f c) t = some ta := by
  rw [lookupL_insertL_ne _ f t c hft, lookupL_removeL_ne l f t hft]
  exact ht

/-- Length of the triple-insert chain of a won attack. -/
theorem length_ins_ins_ins (l : List (Nat × Area)) (f t : Nat) (a b c : Area)
    (hft : t ≠ f) (hmem : ∃ x, lookupL l t = some x)
    (hnone : lookupL l f = none) :
    (insertL (insertL (insertL l t a) t b) f c).length = l.length + 1 := by
  have e1 : (insertL l t a).length = l.length := length_insertL_of_mem l t a hmem
  have h2 : lookupL (insertL l t a) t = some a := lookupL_insertL_self l t a
  have e2 : (insertL (insertL l t a) t b).length = (insertL l t a).length :=
    length_insertL_of_mem _ t b ⟨a, h2⟩
  have h3 : lookupL (insertL (insertL l t a) t b) f = none := by
    rw [lookupL_insertL_ne _ t f b (Ne.symm hft), lookupL_insertL_ne _ t f a (Ne.symm hft)]
    exact hnone
  have e3 := length_insertL_of_not_mem (insertL (insertL l t a) t b) f c h3
  omega

/-- C1: for every successful `Game::attack`, with the rolls as inputs: when
the attacker's roll is strictly greater, the target area's owner becomes the
attacking player and its count becomes `n - 1` for `n` the attacking area's
pre-attack count; otherwise (ties included) the defending area is unchanged
(owner and count alike) and the attacking area's stack is reset to 1. -/
theorem attack_resolution_correct (g : Game) (f t p ar dr : Nat) (fa ta : Area)
    (hfa : g.world.get f = some fa) (hta : g.world.get t = some ta)
    (hok : (g.attack f t p ar dr).1 = Except.ok ()) :
    (ar > dr →
      ∃ ta2, (g.attack f t p ar dr).2.world.get t = some ta2 ∧
        ta2.owner = some p ∧ ta2.stack.count = fa.stack.count - 1) ∧
    (¬ ar > dr →
      (g.attack f t p ar dr).2.world.get t = some ta ∧
      ∃ fa2, (g.attack f t p ar dr).2.world.get f = some fa2 ∧
        fa2.stack.count = 1) := by
  have hv := attack_ok_validate_ok g f t p ar dr hok
  rcases (validate_attack_ok_iff g.world f t p).mp hv with
    ⟨fb, tb, hfb, htb, hadj, hown, hnot, hsingle⟩
  rw [hfa] at hfb
  rw [hta] at htb
  cases hfb
  cases htb
  have hft := valid_to_ne_from g.world f t p fa ta hfa hta hown hnot
  have he := attack_eq_of_valid g f t p ar dr fa ta hfa hta hadj hown hnot hsingle
  constructor
  · intro hgt
    rw [he, if_pos hgt]
    exact ⟨{ ta with owner := some p, stack := Stack.mk (fa.stack.count - Stack.MINC) },
      lookup_ins_ins_ins_to (removeL g.world.areas f) f t _ _ _ hft, rfl, rfl⟩
  · intro hle
    rw [he, if_neg hle]
    exact ⟨lookup_ins_remove_other g.world.areas f t _ ta hft hta,
      { fa with stack := fa.stack.defeat },
      lookupL_insertL_self (removeL g.world.areas f) f _, rfl⟩

/-- C1 witness: the concrete two-area game, attacker roll 5 against defender
roll 3 — the target becomes player 1's with 2 dice (3 pre-attack minus 1). -/
theorem attack_resolution_correct_witness :
    ∃ ta2, (gTwo.attack 100 200 1 5 3).2.world.get 200 = some ta2 ∧
      ta2.owner = some 1 ∧ ta2.stack.count = areaA.stack.count - 1 :=
  (attack_resolution_correct gTwo 100 200 1 5 3 areaA areaB rfl rfl rfl).1
    (by decide)

/-- C2: after every successful attack, win or lose, the attacking area is
still present, holds exactly one die, is still owned by the attacking player,
and the number of areas in the world is unchanged. -/
theorem attack_frame_correct (g : Game) (f t p ar dr : Nat)
    (hnd : (g.world.areas.map Prod.fst).Nodup)
    (hok : (g.attack f t p ar dr).1 = Except.ok ()) :
    ∃ fa2, (g.attack f t p ar dr).2.world.get f = some fa2 ∧
      fa2.stack.count = 1 ∧ fa2.owner = some p ∧
      (g.attack f t p ar dr).2.world.areas.length = g.world.areas.length := by
  have hv := attack_ok_validate_ok g f t p ar dr hok
  rcases (validate_attack_ok_iff g.world f t p).mp hv with
    ⟨fa, ta, hfa, hta, hadj, hown, hnot, hsingle⟩
  have hft := valid_to_ne_from g.world f t p fa ta hfa hta hown hnot
  have he := attack_eq_of_valid g f t p ar dr fa ta hfa hta hadj hown hnot hsingle
  have howner : fa.owner = some p := of_decide_eq_true hown
  have hlenrm : (removeL g.world.areas f).length + 1 = g.world.areas.length :=
    length_removeL_nodup g.world.areas f hnd ⟨fa, hfa⟩
  have hfrm : lookupL (removeL g.world.areas f) f = none :=
    lookupL_removeL_self g.world.areas f
  have htrm : lookupL (removeL g.world.areas f) t = some ta := by
    rw [lookupL_removeL_ne _ f t hft]
    exact hta
  by_cases hgt : ar > dr
  · rw [he, if_pos hgt]
    refine ⟨{ fa with stack := Stack.mk Stack.MINC },
      lookupL_insertL_self _ f _, rfl, howner, ?_⟩
    have hw : (winWorld g.world f t p fa ta).areas.length
        = (removeL g.world.areas f).length + 1 :=
      length_ins_ins_ins (removeL g.world.areas f) f t
        { ta with owner := some p }
        { ta with owner := some p, stack := Stack.mk (fa.stack.count - Stack.MINC) }
        { fa with stack := Stack.mk Stack.MINC } hft ⟨ta, htrm⟩ hfrm
    show (winWorld g.world f t p fa ta).areas.length = g.world.areas.length
    omega
  · rw [he, if_neg hgt]
    refine ⟨{ fa with stack := fa.stack.defeat },
      lookupL_insertL_self _ f _, rfl, howner, ?_⟩
    have hw : (loseWorld g.world f fa).areas.length
        = (removeL g.world.areas f).length + 1 :=
      length_insertL_of_not_mem (removeL g.world.areas f) f
        { fa with stack := fa.stack.defeat } hfrm
    show (loseWorld g.world f fa).areas.length = g.world.areas.length
    omega

/-- C2 witness: the concrete two-area game with a lost attack (roll 2
against 6). -/
theorem attack_frame_correct_witness :
    ∃ fa2, (gTwo.attack 100 200 1 2 6).2.world.get 100 = some fa2 ∧
      fa2.stack.count = 1 ∧ fa2.owner = some 1 ∧
      (gTwo.attack 100 200 1 2 6).2.world.areas.length = gTwo.world.areas.length :=
  attack_frame_correct gTwo 100 200 1 2 6 (by decide) rfl

/-- C6: every mutating `Game` operation is all-or-nothing — whenever
`join_player`, `start`, `attack` or `next_turn` returns an error, the
returned game equals the input game (state, players and world included). -/
theorem mutations_all_or_nothing (g : Game) :
    (∀ id name e, (g.join_player id name).1 = Except.error e →
      (g.join_player id name).2 = g) ∧
    (∀ r e, (g.start r).1 = Except.error e → (g.start r).2 = g) ∧
    (∀ f t p ar dr e, (g.attack f t p ar dr).1 = Except.error e →
      (g.attack f t p ar dr).2 = g) ∧
    (∀ pid res g2 e, g.next_turn pid = some (res, g2) →
      res = Except.error e → g2 = g) := by
  refine ⟨?_, ?_, ?_, ?_⟩
  · intro id name e herr
    unfold Game.join_player at herr ⊢
    split_ifs at herr ⊢ with h1 h2 h3
    · rfl
    · rfl
    · rfl
    · rcases hc : Color.tryFrom g.players.length with ce | c
      · rfl
      · rw [hc] at herr
        simp at herr
  · intro r e herr
    unfold Game.start at herr ⊢
    split_ifs at herr ⊢ with h1 h2
    · rfl
    · rfl
  · intro f t p ar dr e herr
    rcases hval : g.world.validate_attack f t p with e2 | u
    · simp [Game.attack, hval]
    · rcases (validate_attack_ok_iff g.world f t p).mp hval with
        ⟨fa, ta, hfa, hta, hadj, hown, hnot, hsingle⟩
      have he := attack_eq_of_valid g f t p ar dr fa ta hfa hta hadj hown hnot hsingle
      rw [he] at herr
      by_cases hgt : ar > dr
      · rw [if_pos hgt] at herr
        exact absurd herr (by simp)
      · rw [if_neg hgt] at herr
        exact absurd herr (by simp)
  · intro pid res g2 e hsome hres
    rcases hst : g.state with _ | turn | _
    · simp only [Game.next_turn, hst] at hsome
      cases hsome
      rfl
    · rcases hcur : g.players.get? turn with _ | current
      · simp only [Game.next_turn, hst, hcur] at hsome
        exact Option.noConfusion hsome
      · simp only [Game.next_turn, hst, hcur] at hsome
        by_cases hid : current.id ≠ pid
        · rw [if_pos hid] at hsome
          cases hsome
          rfl
        · rw [if_neg hid] at hsome
          cases hsome
          exact absurd hres (by simp)
    · simp only [Game.next_turn, hst] at hsome
      cases hsome
      rfl

/-- C6 witness: a duplicate join on the six-player game errors and leaves the
game untouched. -/
theorem mutations_all_or_nothing_witness :
    (gSix.join_player 1 "dup").2 = gSix :=
  (mutations_all_or_nothing gSix).1 1 "dup" GameError.playerAlreadyInGame rfl

/-- Both attack outcomes for two games sharing a world: the result component
and the world transformation are functions of the world and arguments only,
and the output game keeps the input game's other fields. -/
theorem attack_shared_world (g g2 : Game) (f t p ar dr : Nat)
    (hw : g2.world = g.world) :
    (g2.attack f t p ar dr).1 = (g.attack f t p ar dr).1 ∧
    (g2.attack f t p ar dr).2 =
      { g2 with world := (g.attack f t p ar dr).2.world } := by
  rcases hval : g.world.validate_attack f t p with e2 | u
  · have hx : g.attack f t p ar dr = (Except.error (GameError.attackError e2), g) := by
      simp [Game.attack, hval]
    have hx2 : g2.attack f t p ar dr = (Except.error (GameError.attackError e2), g2) := by
      simp [Game.attack, hw, hval]
    rw [hx, hx2]
    exact ⟨rfl, by rw [← hw]⟩
  · rcases (validate_attack_ok_iff g.world f t p).mp hval with
      ⟨fa, ta, hfa, hta, hadj, hown, hnot, hsingle⟩
    have he := attack_eq_of_valid g f t p ar dr fa ta hfa hta hadj hown hnot hsingle
    have he2 := attack_eq_of_valid g2 f t p ar dr fa ta (by rw [hw]; exact hfa)
      (by rw [hw]; exact hta) hadj hown hnot hsingle
    rw [he, he2]
    by_cases hgt : ar > dr
    · rw [if_pos hgt, if_pos hgt]
      exact ⟨rfl, by rw [hw]⟩
    · rw [if_neg hgt, if_neg hgt]
      exact ⟨rfl, by rw [hw]⟩

/-- C10: the outcome of `Game::attack` is a function of the world and the
arguments alone — the result component is exactly `validate_attack`'s verdict
(attack errors wrapped into `GameError`), so an attack that passes world
validation succeeds whatever the game state (waiting, in progress or
finished) and whoever holds the turn; overriding state and players before
the call merely carries the override through to the output. -/
theorem attack_ignores_state (g : Game) (f t p ar dr : Nat) :
    ((g.attack f t p ar dr).1 =
      (match g.world.validate_attack f t p with
       | .error e => Except.error (GameError.attackError e)
       | .ok _ => Except.ok ())) ∧
    (∀ s ps, (({ g with state := s, players := ps } : Game).attack f t p ar dr) =
      ((g.attack f t p ar dr).1,
        { (g.attack f t p ar dr).2 with state := s, players := ps })) := by
  constructor
  · rcases hval : g.world.validate_attack f t p with e2 | u
    · simp [Game.attack, hval]
    · rcases (validate_attack_ok_iff g.world f t p).mp hval with
        ⟨fa, ta, hfa, hta, hadj, hown, hnot, hsingle⟩
      have he := attack_eq_of_valid g f t p ar dr fa ta hfa hta hadj hown hnot hsingle
      rw [he]
      by_cases hgt : ar > dr
      · rw [if_pos hgt]
      · rw [if_neg hgt]
  · intro s ps
    have hself := (attack_shared_world g g f t p ar dr rfl).2
    have hmod := attack_shared_world g { g with state := s, players := ps } f t p ar dr rfl
    refine Prod.ext hmod.1 ?_
    rw [hmod.2, hself]

/-- The claim's first condition: the `from` area exists. -/
def condExists (w : World) (k : Nat) : Bool := (w.get k).isSome

/-- The claim's adjacency condition, read off the world by id. -/
def condAdjacent (w : World) (f t : Nat) : Bool :=
  ((w.get f).bind (fun fa => (w.get t).map (fun ta => fa.is_adjacent ta))).getD false

/-- The claim's ownership condition: the area with key `k` is owned by `p`. -/
def condOwnedBy (w : World) (k p : Nat) : Bool :=
  ((w.get k).map (fun a => a.is_owned_by p)).getD false

/-- The claim's last condition: the area's stack has more than one unit. -/
def condMoreThanOneDie (w : World) (k : Nat) : Bool :=
  ((w.get k).map (fun a => decide (a.stack.count > 1))).getD false

/-- The attack-legality check as the claim words it: Ok exactly when the five
conditions hold — both areas exist, the areas are adjacent, the from-area is
owned by the player, the to-area is not, and the from-area has more than one
unit — otherwise the error of the first violated condition in that order,
carrying the offending area and player ids. -/
def validateAttackSpec (w : World) (f t p : Nat) : Except AttackError Unit :=
  if ¬ condExists w f then .error (.areaNotFound f)
  else if ¬ condExists w t then .error (.areaNotFound t)
  else if ¬ condAdjacent w f t then .error (.areasNotAdjacent f t)
  else if ¬ condOwnedBy w f p then .error (.areaNotOwnedByPlayer f p)
  else if condOwnedBy w t p then .error .selfAttackNotAllowed
  else if ¬ condMoreThanOneDie w f then .error (.areaNotEnoughDice f)
  else .ok ()

/-- C7: `World::validate_attack` agrees everywhere with the claim's
first-violated-condition description `validateAttackSpec`, and in particular
returns `Ok` exactly when all five conditions hold. -/
theorem validate_attack_matches_spec (w : World) (f t p : Nat) :
    w.validate_attack f t p = validateAttackSpec w f t p := by
  unfold validateAttackSpec condExists condAdjacent condOwnedBy condMoreThanOneDie
  cases hf : w.get f with
  | none => simp [World.validate_attack, hf]
  | some fa =>
    cases ht : w.get t with
    | none => simp [World.validate_attack, hf, ht]
    | some ta =>
      simp only [World.validate_attack, hf, ht, Option.bind_some, Option.map_some,
        Option.getD_some, Option.isSome_some, Bool.not_true, Bool.false_eq_true,
        if_false, ite_not]
      have hsing : fa.stack.is_single = decide (¬ fa.stack.count > 1) := by
        unfold Stack.is_single Stack.MINC
        by_cases hc : fa.stack.count ≤ 1 <;> simp [hc]
      rw [hsing]
      by_cases hadj : fa.is_adjacent ta = true <;>
        by_cases hown : fa.is_owned_by p = true <;>
          by_cases hnot : ta.is_owned_by p = true <;>
            by_cases hgt : fa.stack.count > 1 <;>
              simp [hadj, hown, hnot, hgt]

/-- C8: for a waiting game with the join-reachable player count (at most 6),
`start` succeeds exactly when the count is in `[2, 6]` — including the empty
and one-player lobbies, where it fails before any random value is drawn, so
the iff needs no bound on `r` — and on success the state is `InProgress` with
a turn index strictly below the player count (`r` models
`random_range(..self.players.len())`, whose in-range guarantee is the local
hypothesis of that conjunct only); `start` on a non-waiting game fails with
`GameStarted`; and `join_player` never pushes the player count above 6, which
is what keeps larger counts unreachable. -/
theorem start_correct (g : Game) (r : Nat)
    (hle : g.players.length ≤ 6) :
    (g.state = GameState.waitingForPlayers →
      (((g.start r).1 = Except.ok ()) ↔
        (2 ≤ g.players.length ∧ g.players.length ≤ 6)) ∧
      (r < g.players.length → (g.start r).1 = Except.ok () →
        ∃ n, (g.start r).2.state = GameState.inProgress n ∧
          n < g.players.length)) ∧
    (g.state ≠ GameState.waitingForPlayers →
      (g.start r).1 = Except.error GameError.gameStarted) ∧
    (∀ id name, (g.join_player id name).2.players.length ≤ 6) := by
  refine ⟨?_, ?_, ?_⟩
  · intro hw
    unfold Game.start
    rw [if_neg (by simp [hw])]
    by_cases h2 : g.players.length < 2
    · rw [if_pos h2]
      constructor
      · constructor
        · intro hok
          exact absurd hok (by simp)
        · intro hcnt
          omega
      · intro hr hok
        exact absurd hok (by simp)
    · rw [if_neg h2]
      constructor
      · constructor
        · intro _
          omega
        · intro _
          rfl
      · intro hr _
        exact ⟨r, rfl, hr⟩
  · intro hnw
    unfold Game.start
    rw [if_pos hnw]
  · intro id name
    unfold Game.join_player
    split_ifs with h1 h2 h3
    · exact hle
    · exact hle
    · exact hle
    · rcases hc : Color.tryFrom g.players.length with ce | c
      · exact hle
      · have : g.players.length < MAX_PLAYERS := by omega
        simp only [List.length_append, List.length_cons, List.length_nil]
        unfold MAX_PLAYERS at this
        omega

/-- A waiting game with no players, the initial state of every game. -/
def gWait0 : Game := ⟨10, ⟨[]⟩, [], .waitingForPlayers⟩

/-- C8 witness: the two-player waiting game starts successfully into
`InProgress` with turn index 1 < 2, the empty waiting lobby cannot start, and
a non-waiting game rejects start. -/
theorem start_correct_witness :
    (gWait2.start 1).1 = Except.ok () ∧
    (gWait2.start 1).2.state = GameState.inProgress 1 ∧
    (gWait0.start 0).1 ≠ Except.ok () ∧
    (gSix.start 0).1 = Except.error GameError.gameStarted := by
  have h := start_correct gWait2 1 (by decide)
  have h0 := start_correct gWait0 0 (by decide)
  have h6 := start_correct gSix 0 (by decide)
  refine ⟨((h.1 rfl).1).mpr (by decide), rfl, ?_, h6.2.1 (by decide)⟩
  intro hok
  exact absurd (((h0.1 rfl).1).mp hok) (by decide)

/-- Fold of `Game::join_player` over a list of join requests, keeping the
post-state of every call whether or not it succeeded. -/
def Game.joinRun (g : Game) (reqs : List (Nat × String)) : Game :=
  reqs.foldl (fun acc r => (acc.join_player r.1 r.2).2) g

/-- Color conversion for an in-range index is the corresponding `ALL` entry,
expressed through `take`. -/
theorem tryFrom_take (n : Nat) (c : Color) (hn : n < 6)
    (h : Color.tryFrom n = Except.ok c) :
    Color.ALL.take (n + 1) = Color.ALL.take n ++ [c] := by
  interval_cases n <;> (injection h with h2; rw [← h2]; rfl)

/-- The join invariant: at most six players, colored by join position. -/
theorem joinRun_invariant (reqs : List (Nat × String)) (g : Game)
    (hlen : g.players.length ≤ 6)
    (hcol : g.players.map Player.color = Color.ALL.take g.players.length) :
    (Game.joinRun g reqs).players.length ≤ 6 ∧
    (Game.joinRun g reqs).players.map Player.color
      = Color.ALL.take (Game.joinRun g reqs).players.length := by
  induction reqs generalizing g with
  | nil => exact ⟨hlen, hcol⟩
  | cons r rest ih =>
    have hstep : ((g.join_player r.1 r.2).2.players.length ≤ 6) ∧
        ((g.join_player r.1 r.2).2.players.map Player.color
          = Color.ALL.take (g.join_player r.1 r.2).2.players.length) := by
      unfold Game.join_player
      split_ifs with h1 h2 h3
      · exact ⟨hlen, hcol⟩
      · exact ⟨hlen, hcol⟩
      · exact ⟨hlen, hcol⟩
      · rcases hc : Color.tryFrom g.players.length with ce | c
        · exact ⟨hlen, hcol⟩
        · have hlt : g.players.length < 6 := by
            unfold MAX_PLAYERS at h2
            omega
          constructor
          · simp only [List.length_append, List.length_cons, List.length_nil]
            omega
          · simp only [List.map_append, List.map_cons, List.map_nil,
              List.length_append, List.length_cons, List.length_nil, hcol]
            have : Player.color (Player.new r.1 r.2 c) = c := rfl
            rw [this, tryFrom_take g.players.length c hlt hc]
    have hrun : Game.joinRun g (r :: rest)
        = Game.joinRun (g.join_player r.1 r.2).2 rest := rfl
    rw [hrun]
    exact ih (g.join_player r.1 r.2).2 hstep.1 hstep.2

/-- C9: after any sequence of join requests into a fresh game, the players'
colors are exactly the first entries of `Color.ALL` in join order (the n-th
successful joiner holds `ALL[n-1]`), and hence no two players of the game
share a color. -/
theorem join_colors_positional (gid : Nat) (w : World)
    (reqs : List (Nat × String)) :
    ((Game.new gid w).joinRun reqs).players.map Player.color
      = Color.ALL.take ((Game.new gid w).joinRun reqs).players.length ∧
    (((Game.new gid w).joinRun reqs).players.map Player.color).Nodup := by
  have hinv := joinRun_invariant reqs (Game.new gid w) (by simp [Game.new])
    (by simp [Game.new])
  refine ⟨hinv.2, ?_⟩
  rw [hinv.2]
  have hall : Color.ALL.Nodup := by decide
  exact (List.take_sublist _ _).nodup hall
